import Mathlib

/-!
# Verification of the file-organizer core pipeline

A shallow embedding of the organization/undo core of the `file-organizer`
repository:

* `file_organizer/models.py` — data model (`OperationType`,
  `ConflictResolution`, `FileMetadata`, `OrganizationPlan`, `Transaction`);
* `file_organizer/organizer.py` — `FileOrganizer._apply_naming_convention`,
  `FileOrganizer._resolve_conflict`, `FileOrganizer.execute_plan`,
  `FileOrganizer._create_backup`;
* `file_organizer/safety.py` — `TransactionLogger.get_last_batch`,
  `TransactionLogger.undo_last_batch`.

Modelling conventions:

* A filesystem path is the triple (parent directory, stem, suffix) that
  `pathlib` decomposes a file path into; this is exactly the granularity at
  which the source manipulates paths (`.parent`, `.stem`, `.suffix`).
* The filesystem is a finite association list from paths to file data
  (content plus modification time).  Directories are not modelled;
  `mkdir(parents=True, exist_ok=True)` is a no-op here.
* Python `datetime` values are modelled by their POSIX timestamp (an
  integer number of seconds) together with the calendar fields the code
  reads (`year`, `month`, `day`).
* Python strings are modelled as `String` / `List Char`; `str.replace` and
  slicing are reimplemented below with Python semantics.
* Exceptions raised and caught by the source (`shutil.SameFileError`,
  `FileNotFoundError`) become `Except String` results.
* `datetime.now()` is modelled by an explicit `now : Int` parameter; within
  one call of `execute_plan` all transactions share it.
-/

set_option linter.unusedVariables false

namespace FileOrg

/-! ## Data model (`models.py`) -/

/-- `OperationType` from `models.py`. -/
inductive OperationType where
  | copy
  | move
deriving DecidableEq, Repr

/-- `ConflictResolution` from `models.py`. -/
inductive ConflictResolution where
  | skip
  | rename
  | prompt
  | keep_newest
  | keep_oldest
  | overwrite
deriving DecidableEq, Repr

/-- A filesystem path, decomposed as `pathlib` does: parent directory,
stem, and suffix (extension including the leading dot, or empty). -/
structure FPath where
  dir : String
  stem : String
  ext : String
deriving DecidableEq, Repr

/-- A Python `datetime`: its POSIX timestamp in seconds (`.timestamp()`)
plus the calendar fields read by the naming code. -/
structure PyDateTime where
  ts : Int
  year : Nat
  month : Nat
  day : Nat
deriving DecidableEq, Repr

/-- `FileMetadata` from `models.py` (fields used by the core pipeline).
`stem` is the derived property `Path(filename).stem`. -/
structure FileMetadata where
  source_path : FPath
  stem : String
  extension : String
  size : Nat
  modified_date : PyDateTime
  project : Option String := none
  category : Option String := none
deriving DecidableEq, Repr

/-- `OrganizationPlan` from `models.py`. -/
structure OrganizationPlan where
  file_metadata : FileMetadata
  destination_path : FPath
  operation : OperationType
  conflict : Bool := false
  conflict_resolution : Option ConflictResolution := none
  skip : Bool := false
  skip_reason : Option String := none
deriving DecidableEq, Repr

/-- `Transaction` from `models.py`.  The timestamp is the POSIX timestamp
of the `datetime` stored by the source. -/
structure Transaction where
  timestamp : Int
  operation : OperationType
  source_path : FPath
  destination_path : FPath
  success : Bool
  error : Option String := none
  backup_path : Option FPath := none
deriving DecidableEq, Repr

/-! ## Filesystem model -/

/-- Contents and metadata of one file on disk.  `mtime` is `st_mtime`. -/
structure FileData where
  content : Nat
  mtime : Int
deriving DecidableEq, Repr

/-- A finite filesystem: an association list from paths to file data.
Earlier entries shadow later ones (lookup takes the first match). -/
structure FS where
  files : List (FPath × FileData)
deriving DecidableEq, Repr

/-- Look up the file stored at `p`. -/
def FS.get (fs : FS) (p : FPath) : Option FileData :=
  (fs.files.find? (fun e => e.1 == p)).map (fun e => e.2)

/-- `Path.exists()`. -/
def FS.pathExists (fs : FS) (p : FPath) : Bool :=
  (fs.get p).isSome

/-- Write (create or overwrite) the file at `p`. -/
def FS.set (fs : FS) (p : FPath) (fd : FileData) : FS :=
  ⟨(p, fd) :: fs.files.filter (fun e => e.1 != p)⟩

/-- `Path.unlink()` / removal of the file at `p`. -/
def FS.remove (fs : FS) (p : FPath) : FS :=
  ⟨fs.files.filter (fun e => e.1 != p)⟩

theorem FS.get_set_self (fs : FS) (p : FPath) (fd : FileData) :
    (fs.set p fd).get p = some fd := by
  simp [FS.get, FS.set, List.find?]

theorem find_filter_ne (l : List (FPath × FileData)) (p q : FPath) (h : q ≠ p) :
    (l.filter (fun e => e.1 != p)).find? (fun e => e.1 == q) =
      l.find? (fun e => e.1 == q) := by
  induction l with
  | nil => rfl
  | cons e rest ih =>
    by_cases hep : e.1 = p
    · have h2 : (p == q) = false := beq_eq_false_iff_ne.mpr (Ne.symm h)
      simp [List.filter, List.find?, hep, h2, ih]
    · by_cases heq : e.1 = q
      · have h4 : (q != p) = true := by simp [bne, beq_eq_false_iff_ne.mpr h]
        simp [List.filter, List.find?, heq, h4]
      · have h5 : (e.1 != p) = true := by
          simp [bne, beq_eq_false_iff_ne.mpr hep]
        have h6 : (e.1 == q) = false := beq_eq_false_iff_ne.mpr heq
        simp [List.filter, List.find?, h5, h6, ih]

theorem FS.get_set_ne (fs : FS) (p q : FPath) (fd : FileData) (h : q ≠ p) :
    (fs.set p fd).get q = fs.get q := by
  have h7 : (p == q) = false := beq_eq_false_iff_ne.mpr (Ne.symm h)
  show ((((p, fd) :: fs.files.filter (fun e => e.1 != p)).find?
      (fun e => e.1 == q)).map (fun e => e.2)) = FS.get fs q
  simp only [List.find?, h7]
  rw [find_filter_ne fs.files p q h]
  rfl

theorem FS.get_remove_self (fs : FS) (p : FPath) :
    (fs.remove p).get p = none := by
  have h : (fs.files.filter (fun e => e.1 != p)).find? (fun e => e.1 == p) = none := by
    rw [List.find?_eq_none]
    intro x hx
    have hx' := (List.mem_filter.mp hx).2
    simp only [bne_iff_ne, ne_eq] at hx'
    simp [hx']
  simp [FS.get, FS.remove, h]

theorem FS.get_remove_ne (fs : FS) (p q : FPath) (h : q ≠ p) :
    (fs.remove p).get q = fs.get q := by
  simp [FS.get, FS.remove, find_filter_ne fs.files p q h]

/-! ## The transaction log: `get_last_batch` (`safety.py`) -/

/-- The grouping test of `TransactionLogger.get_last_batch`:
`abs((t.timestamp - last_timestamp).total_seconds()) < 60`. -/
def inBatchWindow (lastTs : Int) (t : Transaction) : Bool :=
  decide ((t.timestamp - lastTs).natAbs < 60)

/-- `TransactionLogger.get_last_batch`: starting from the last logged
transaction, scan the log backward collecting (in chronological order)
every transaction whose timestamp is within 60 seconds of the *last*
transaction's timestamp, stopping at the first one that is not. -/
def get_last_batch (log : List Transaction) : List Transaction :=
  match log.getLast? with
  | none => []
  | some last =>
      (log.reverse.takeWhile (inBatchWindow last.timestamp)).reverse

/-! ## Configuration (the values read by the core from `config.py`) -/

/-- The `organization.naming` sub-configuration read by
`_apply_naming_convention`. -/
structure NamingConfig where
  template : List Char := "{original_name}".data
  date_format : String := "%Y%m%d"
  lowercase : Bool := false
  replace_spaces : Option (List Char) := none
  max_length : Nat := 255
deriving DecidableEq, Repr

/-- The configuration values the executor and resolver read. -/
structure Config where
  create_backup : Bool := false
  backup_path : String := ""
  preserve_timestamps : Bool := true
  naming : NamingConfig := {}
deriving DecidableEq, Repr

/-! ## Filesystem primitives used by the executor (`shutil`, `pathlib`) -/

/-- `shutil.copy2(src, dst)`: copies contents and metadata (including the
modification time).  Raises `SameFileError` when `src == dst` and
`FileNotFoundError` when the source does not exist. -/
def copy2 (fs : FS) (src dst : FPath) : Except String FS :=
  if src = dst then .error "SameFileError"
  else
    match fs.get src with
    | none => .error "FileNotFoundError"
    | some fd => .ok (fs.set dst fd)

/-- `shutil.move(src, dst)` for files: the file disappears from `src` and
appears (with its metadata) at `dst`. -/
def moveFile (fs : FS) (src dst : FPath) : Except String FS :=
  match fs.get src with
  | none => .error "FileNotFoundError"
  | some fd => .ok ((fs.remove src).set dst fd)

/-- `source.stat()` followed by `shutil.copystat(source, dest)`: re-applies
the source's timestamps to the destination.  Raises `FileNotFoundError`
when either file is missing. -/
def copystat (fs : FS) (src dst : FPath) : Except String FS :=
  match fs.get src, fs.get dst with
  | some s, some d => .ok (fs.set dst ⟨d.content, s.mtime⟩)
  | _, _ => .error "FileNotFoundError"

/-! ## The executor (`organizer.py`) -/

/-- The timestamped backup filename built by `_create_backup`:
`{stem}_{YYYYMMDD_HHMMSS}{ext}` inside `safety.backup_path`.  The
`strftime` rendering of the wall clock is modelled as the decimal
rendering of `now`. -/
def backupPathFor (cfg : Config) (src : FPath) (now : Int) : FPath :=
  ⟨cfg.backup_path, src.stem ++ "_" ++ toString now, src.ext⟩

/-- `FileOrganizer._create_backup`: make the backup directory, then
`shutil.copy2` the source into the timestamped backup location. -/
def create_backup (cfg : Config) (fs : FS) (src : FPath) (now : Int) :
    Except String (FS × FPath) :=
  match copy2 fs src (backupPathFor cfg src now) with
  | .error e => .error e
  | .ok fs' => .ok (fs', backupPathFor cfg src now)

/-- One iteration of the non-dry-run branch of
`FileOrganizer.execute_plan` for a non-skipped plan: the `try` block with
its per-file exception handler.  Side effects that happened before an
exception (e.g. the backup copy) persist, exactly as in the source, and
the transaction keeps the fields assigned before the exception. -/
def executeStep (cfg : Config) (fs : FS) (plan : OrganizationPlan) (now : Int) :
    FS × Transaction :=
  let t0 : Transaction :=
    { timestamp := now
      operation := plan.operation
      source_path := plan.file_metadata.source_path
      destination_path := plan.destination_path
      success := false }
  -- plan.destination_path.parent.mkdir(parents=True, exist_ok=True):
  -- directories are not modelled, so this step cannot fail here.
  match (if cfg.create_backup then
          (create_backup cfg fs plan.file_metadata.source_path now).map
            (fun r => (r.1, some r.2))
         else .ok (fs, none) : Except String (FS × Option FPath)) with
  | .error e => (fs, { t0 with error := some e })
  | .ok (fs1, bp) =>
    let t1 := { t0 with backup_path := bp }
    match (match plan.operation with
           | .copy => copy2 fs1 plan.file_metadata.source_path plan.destination_path
           | .move => moveFile fs1 plan.file_metadata.source_path plan.destination_path) with
    | .error e => (fs1, { t1 with error := some e })
    | .ok fs2 =>
      if cfg.preserve_timestamps then
        match copystat fs2 plan.file_metadata.source_path plan.destination_path with
        | .error e => (fs2, { t1 with error := some e })
        | .ok fs3 => (fs3, { t1 with success := true })
      else (fs2, { t1 with success := true })

/-- `FileOrganizer.execute_plan`: skipped plans produce no transaction;
with `dry_run` a successful transaction is emitted without touching the
filesystem; otherwise `executeStep` runs and its per-file result is
recorded.  The batch always continues to the next plan. -/
def execute_plan (cfg : Config) (fs : FS) (plans : List OrganizationPlan)
    (dry_run : Bool) (now : Int) : FS × List Transaction :=
  match plans with
  | [] => (fs, [])
  | plan :: rest =>
    if plan.skip then
      execute_plan cfg fs rest dry_run now
    else if dry_run then
      let t : Transaction :=
        { timestamp := now
          operation := plan.operation
          source_path := plan.file_metadata.source_path
          destination_path := plan.destination_path
          success := true }
      let r := execute_plan cfg fs rest dry_run now
      (r.1, t :: r.2)
    else
      let s := executeStep cfg fs plan now
      let r := execute_plan cfg s.1 rest dry_run now
      (r.1, s.2 :: r.2)

/-! ## Undo (`safety.py`) -/

/-- How one transaction fared inside `undo_last_batch`'s loop:
counted as a successful undo, counted as a failed undo, or passed over
without touching either counter. -/
inductive UndoOutcome where
  | succeeded
  | failed
  | skipped
deriving DecidableEq, Repr

/-- One iteration of the `for transaction in reversed(batch)` loop of
`TransactionLogger.undo_last_batch`. -/
def undoStep (fs : FS) (t : Transaction) : FS × UndoOutcome :=
  if !t.success then (fs, .skipped)
  else
    match t.operation with
    | .copy =>
      -- delete the destination if it is present; otherwise nothing happens
      -- and neither counter moves
      if fs.pathExists t.destination_path then
        (fs.remove t.destination_path, .succeeded)
      else (fs, .skipped)
    | .move =>
      if fs.pathExists t.destination_path then
        match t.backup_path with
        | some bp =>
          if fs.pathExists bp then
            match copy2 fs bp t.source_path with
            | .ok fs' => (fs', .succeeded)
            | .error _ => (fs, .failed)
          else
            match moveFile fs t.destination_path t.source_path with
            | .ok fs' => (fs', .succeeded)
            | .error _ => (fs, .failed)
        | none =>
          match moveFile fs t.destination_path t.source_path with
          | .ok fs' => (fs', .succeeded)
          | .error _ => (fs, .failed)
      else (fs, .skipped)

/-- Fold `undoStep` over a list of transactions (already reversed into
undo order), tallying `(successful, failed)`. -/
def undoBatch (fs : FS) (ts : List Transaction) : FS × Nat × Nat :=
  match ts with
  | [] => (fs, 0, 0)
  | t :: rest =>
    let s := undoStep fs t
    let r := undoBatch s.1 rest
    (r.1,
     (if s.2 = .succeeded then r.2.1 + 1 else r.2.1),
     (if s.2 = .failed then r.2.2 + 1 else r.2.2))

/-- `TransactionLogger.undo_last_batch` acting on an in-memory log:
returns the filesystem after the undos, the persisted log that remains
(`all_transactions[:-batch_size]`), and the `(successful, failed)` tally. -/
def undo_last_batch (fs : FS) (log : List Transaction) :
    FS × List Transaction × Nat × Nat :=
  let batch := get_last_batch log
  if batch.isEmpty then (fs, log, 0, 0)
  else
    let r := undoBatch fs batch.reverse
    (r.1, log.take (log.length - batch.length), r.2.1, r.2.2)

/-! ## Conflict resolution (`organizer.py`) -/

/-- The candidate path tried by the rename loop at a given counter value:
`base_path / f"{stem}_{counter}{extension}"`. -/
def renameCandidate (p : FPath) (counter : Nat) : FPath :=
  ⟨p.dir, p.stem ++ "_" ++ toString counter, p.ext⟩

/-- The `while True` loop of the rename strategy, with explicit fuel.
The source loop always terminates because the filesystem is finite and
the candidate names are pairwise distinct; `resolve_conflict` passes
`fs.files.length + 1` units of fuel, enough to reach a free name. -/
def renameLoop (fs : FS) (p : FPath) : Nat → Nat → Option FPath
  | 0, _ => none
  | fuel + 1, counter =>
    if fs.pathExists (renameCandidate p counter) then
      renameLoop fs p fuel (counter + 1)
    else some (renameCandidate p counter)

/-- `FileOrganizer._resolve_conflict`.  The source dereferences
`plan.destination_path.stat()` only under the keep-newest/keep-oldest
strategies and only when the caller has checked `dest_path.exists()`;
the unreachable missing-destination case leaves the plan unchanged. -/
def resolve_conflict (fs : FS) (plan : OrganizationPlan) : OrganizationPlan :=
  match plan.conflict_resolution with
  | some .skip =>
      { plan with skip := true, skip_reason := some "File already exists" }
  | some .rename =>
      match renameLoop fs plan.destination_path (fs.files.length + 1) 1 with
      | some p => { plan with destination_path := p, conflict := false }
      | none => plan
  | some .keep_newest =>
      match fs.get plan.destination_path with
      | some fd =>
          if plan.file_metadata.modified_date.ts ≤ fd.mtime then
            { plan with skip := true, skip_reason := some "Existing file is newer" }
          else plan
      | none => plan
  | some .keep_oldest =>
      match fs.get plan.destination_path with
      | some fd =>
          if fd.mtime ≤ plan.file_metadata.modified_date.ts then
            { plan with skip := true, skip_reason := some "Existing file is older" }
          else plan
      | none => plan
  | some .overwrite => { plan with conflict := false }
  | some .prompt => plan
  | none => plan

/-! ## Filename formatting (`_apply_naming_convention`, `organizer.py`)

Python strings are modelled as `List Char` here so that slicing and
length have their Python (per-character) semantics. -/

/-- Python `str.replace(pat, rep)`: left-to-right, non-overlapping.
`fuel` bounds the scan; each step consumes at least one character, so
`s.length` units suffice.  The naming code only ever replaces nonempty
placeholder patterns, so the empty-pattern case just returns `s`. -/
def pyReplaceFuel (pat rep : List Char) : Nat → List Char → List Char
  | 0, s => s
  | _ + 1, [] => []
  | fuel + 1, c :: rest =>
    if pat ≠ [] ∧ pat.isPrefixOf (c :: rest) then
      rep ++ pyReplaceFuel pat rep fuel ((c :: rest).drop pat.length)
    else c :: pyReplaceFuel pat rep fuel rest

/-- Python `str.replace(pat, rep)`. -/
def pyReplace (s pat rep : List Char) : List Char :=
  pyReplaceFuel pat rep s.length s

/-- Python `f"{n:02d}"`. -/
def pad2 (n : Nat) : String :=
  if n < 10 then "0" ++ toString n else toString n

/-- `datetime.strftime` restricted to the directives the configuration
templates use (`%Y`, `%m`, `%d`). -/
def pyStrftime (d : PyDateTime) (fmt : String) : String :=
  ⟨pyReplace
    (pyReplace (pyReplace fmt.data "%Y".data (toString d.year).data)
      "%m".data (pad2 d.month).data)
    "%d".data (pad2 d.day).data⟩

/-- The substitution + transformation phase of `_apply_naming_convention`:
everything before `# Add extension`.  Placeholders are substituted in the
source's dictionary order, then the lowercase and space-replacement
transformations are applied. -/
def namingStem (cfg : NamingConfig) (fm : FileMetadata) : List Char :=
  let vars : List (List Char × List Char) :=
    [ ("{original_name}".data, fm.stem.data)
    , ("{date}".data, (pyStrftime fm.modified_date cfg.date_format).data)
    , ("{year}".data, (toString fm.modified_date.year).data)
    , ("{month}".data, (pad2 fm.modified_date.month).data)
    , ("{day}".data, (pad2 fm.modified_date.day).data)
    , ("{project}".data, (fm.project.getD "unknown").data)
    , ("{category}".data, (fm.category.getD "other").data) ]
  let substituted := vars.foldl (fun acc kv => pyReplace acc kv.1 kv.2) cfg.template
  let lowered := if cfg.lowercase then substituted.map Char.toLower else substituted
  match cfg.replace_spaces with
  | some r => pyReplace lowered [' '] r
  | none => lowered

/-- Python slicing `s[:i]` (the stop index may be negative). -/
def pySliceTo (s : List Char) (i : Int) : List Char :=
  if 0 ≤ i then s.take i.toNat else s.take ((s.length : Int) + i).toNat

/-- `FileOrganizer._apply_naming_convention`: substitute the naming
template, apply transformations, append the original extension, and
truncate (`filename[:max_length - len(extension)] + extension`) when the
result exceeds `max_length`. -/
def apply_naming_convention (cfg : NamingConfig) (fm : FileMetadata) : List Char :=
  let filename := namingStem cfg fm ++ fm.extension.data
  if filename.length > cfg.max_length then
    let stem_max : Int := (cfg.max_length : Int) - (fm.extension.data.length : Int)
    pySliceTo filename stem_max ++ fm.extension.data
  else filename

/-! ## Claim C1: batch grouping in `get_last_batch` -/

/-- A logged transaction fixture with a given timestamp. -/
def txAt (ts : Int) : Transaction :=
  { timestamp := ts
    operation := .copy
    source_path := ⟨"home", "a", ".txt"⟩
    destination_path := ⟨"org", "a", ".txt"⟩
    success := true }

/-- Claim C1, counterexample: in the log with timestamps `[0, 50, 100]`
every adjacent gap is under 60 seconds, yet `get_last_batch` does not
return the whole suffix — it stops at the transaction 100 seconds away
from the last one and returns only the last two transactions. -/
theorem get_last_batch_adjacent_gap_counterexample :
    ((txAt 50).timestamp - (txAt 0).timestamp).natAbs < 60 ∧
    ((txAt 100).timestamp - (txAt 50).timestamp).natAbs < 60 ∧
    get_last_batch [txAt 0, txAt 50, txAt 100] ≠ [txAt 0, txAt 50, txAt 100] ∧
    get_last_batch [txAt 0, txAt 50, txAt 100] = [txAt 50, txAt 100] := by
  decide

/-- Claim C1, amended: `get_last_batch` returns the maximal suffix of the
log all of whose transactions are within 60 seconds of the *last*
transaction's timestamp (not of their respective neighbours): the result
is a suffix of the log, every member is within the window of the last
timestamp, and the element immediately preceding the returned suffix
(when one exists) lies 60 or more seconds from the last timestamp. -/
theorem get_last_batch_window (log : List Transaction) (last : Transaction)
    (hlast : log.getLast? = some last) :
    (∃ pre, pre ++ get_last_batch log = log) ∧
    (∀ t ∈ get_last_batch log, inBatchWindow last.timestamp t = true) ∧
    (∀ pre, pre ++ get_last_batch log = log →
      ∀ u, pre.getLast? = some u → inBatchWindow last.timestamp u = false) := by
  have hgb : get_last_batch log =
      (log.reverse.takeWhile (inBatchWindow last.timestamp)).reverse := by
    unfold get_last_batch
    rw [hlast]
  have hsplit :
      log.reverse.takeWhile (inBatchWindow last.timestamp) ++
        log.reverse.dropWhile (inBatchWindow last.timestamp) = log.reverse :=
    List.takeWhile_append_dropWhile _ _
  have hlogeq :
      (log.reverse.dropWhile (inBatchWindow last.timestamp)).reverse ++
        (log.reverse.takeWhile (inBatchWindow last.timestamp)).reverse = log := by
    have h := congrArg List.reverse hsplit
    rwa [List.reverse_append, List.reverse_reverse] at h
  refine ⟨⟨(log.reverse.dropWhile (inBatchWindow last.timestamp)).reverse, by
    rw [hgb]; exact hlogeq⟩, ?_, ?_⟩
  · intro t ht
    rw [hgb, List.mem_reverse] at ht
    exact List.mem_takeWhile_imp ht
  · intro pre hpre u hu
    have hlogeq2 :
        (log.reverse.dropWhile (inBatchWindow last.timestamp)).reverse ++
          get_last_batch log = log := by
      rw [hgb]
      exact hlogeq
    have hpre' : pre = (log.reverse.dropWhile (inBatchWindow last.timestamp)).reverse :=
      List.append_cancel_right (hpre.trans hlogeq2.symm)
    rw [hpre', List.getLast?_reverse] at hu
    have hd := List.head?_dropWhile_not (inBatchWindow last.timestamp) log.reverse
    rw [hu] at hd
    exact hd

/-- Witness for `get_last_batch_window` on the `[0, 50, 100]` log. -/
theorem get_last_batch_window_witness :
    [txAt 0, txAt 50, txAt 100].getLast? = some (txAt 100) ∧
    ((∃ pre, pre ++ get_last_batch [txAt 0, txAt 50, txAt 100] =
        [txAt 0, txAt 50, txAt 100]) ∧
     (∀ t ∈ get_last_batch [txAt 0, txAt 50, txAt 100],
        inBatchWindow (txAt 100).timestamp t = true) ∧
     (∀ pre, pre ++ get_last_batch [txAt 0, txAt 50, txAt 100] =
        [txAt 0, txAt 50, txAt 100] →
      ∀ u, pre.getLast? = some u →
        inBatchWindow (txAt 100).timestamp u = false)) :=
  ⟨by decide, get_last_batch_window _ _ (by decide)⟩

/-! ## Claim C4: keep-newest / keep-oldest -/

/-- Claim C4: for a conflicted plan whose destination exists with
modification time `T_old = fd.mtime` and whose incoming record was
modified at `T_new`, the keep-newest strategy skips iff `T_new ≤ T_old`
and the keep-oldest strategy skips iff `T_new ≥ T_old`. -/
theorem resolve_conflict_keep_strategies (fs : FS) (plan : OrganizationPlan)
    (fd : FileData)
    (hdest : fs.get plan.destination_path = some fd)
    (hskip : plan.skip = false) :
    (plan.conflict_resolution = some .keep_newest →
      ((resolve_conflict fs plan).skip = true ↔
        plan.file_metadata.modified_date.ts ≤ fd.mtime)) ∧
    (plan.conflict_resolution = some .keep_oldest →
      ((resolve_conflict fs plan).skip = true ↔
        fd.mtime ≤ plan.file_metadata.modified_date.ts)) := by
  constructor
  · intro hres
    by_cases hc : plan.file_metadata.modified_date.ts ≤ fd.mtime
    · simp [resolve_conflict, hres, hdest, hc]
    · simp [resolve_conflict, hres, hdest, hc, hskip]
  · intro hres
    by_cases hc : fd.mtime ≤ plan.file_metadata.modified_date.ts
    · simp [resolve_conflict, hres, hdest, hc]
    · simp [resolve_conflict, hres, hdest, hc, hskip]

/-- Fixture: an existing destination file modified at time 200. -/
def fdOld : FileData := ⟨9, 200⟩

/-- Fixture filesystem holding only the destination file. -/
def fsK : FS := ⟨[(⟨"org", "doc", ".txt"⟩, fdOld)]⟩

/-- Fixture plan: incoming record modified at `ts`, conflicted at the
existing destination, under the given strategy. -/
def planK (ts : Int) (r : ConflictResolution) : OrganizationPlan :=
  { file_metadata :=
      { source_path := ⟨"home", "doc", ".txt"⟩
        stem := "doc"
        extension := ".txt"
        size := 5
        modified_date := ⟨ts, 2024, 1, 1⟩ }
    destination_path := ⟨"org", "doc", ".txt"⟩
    operation := .copy
    conflict := true
    conflict_resolution := some r }

/-- Witness for `resolve_conflict_keep_strategies`: incoming record at 100
versus existing file at 200; keep-newest skips it. -/
theorem resolve_conflict_keep_strategies_witness :
    fsK.get (planK 100 .keep_newest).destination_path = some fdOld ∧
    (planK 100 .keep_newest).skip = false ∧
    (((planK 100 .keep_newest).conflict_resolution = some .keep_newest →
       ((resolve_conflict fsK (planK 100 .keep_newest)).skip = true ↔
         (planK 100 .keep_newest).file_metadata.modified_date.ts ≤ fdOld.mtime)) ∧
     ((planK 100 .keep_newest).conflict_resolution = some .keep_oldest →
       ((resolve_conflict fsK (planK 100 .keep_newest)).skip = true ↔
         fdOld.mtime ≤ (planK 100 .keep_newest).file_metadata.modified_date.ts))) ∧
    (resolve_conflict fsK (planK 100 .keep_newest)).skip = true :=
  ⟨by decide, by decide,
   resolve_conflict_keep_strategies fsK (planK 100 .keep_newest) fdOld
     (by decide) (by decide),
   by decide⟩

/-! ## Claim C5: rename conflict resolution -/

theorem renameLoop_first_free (fs : FS) (p : FPath) :
    ∀ fuel counter,
      (∃ k, k < fuel ∧ fs.pathExists (renameCandidate p (counter + k)) = false) →
      ∃ n, counter ≤ n ∧
        renameLoop fs p fuel counter = some (renameCandidate p n) ∧
        fs.pathExists (renameCandidate p n) = false ∧
        (∀ m, counter ≤ m → m < n → fs.pathExists (renameCandidate p m) = true) := by
  intro fuel
  induction fuel with
  | zero =>
    intro counter h
    obtain ⟨k, hk, _⟩ := h
    exact absurd hk (Nat.not_lt_zero k)
  | succ fuel ih =>
    intro counter h
    obtain ⟨k, hk, hfree⟩ := h
    cases hx : fs.pathExists (renameCandidate p counter) with
    | true =>
      have hk0 : k ≠ 0 := by
        intro h0
        rw [h0, Nat.add_zero, hx] at hfree
        exact Bool.noConfusion hfree
      obtain ⟨k', rfl⟩ := Nat.exists_eq_succ_of_ne_zero hk0
      have hfree' : fs.pathExists (renameCandidate p ((counter + 1) + k')) = false := by
        have harith : (counter + 1) + k' = counter + (k' + 1) := by omega
        rw [harith]
        exact hfree
      obtain ⟨n, hn1, hn2, hn3, hn4⟩ := ih (counter + 1) ⟨k', by omega, hfree'⟩
      refine ⟨n, by omega, ?_, hn3, ?_⟩
      · simp only [renameLoop, hx, if_true]
        exact hn2
      · intro m hm1 hm2
        rcases Nat.eq_or_lt_of_le hm1 with heq | hlt
        · rw [← heq]
          exact hx
        · exact hn4 m hlt hm2
    | false =>
      refine ⟨counter, Nat.le_refl _, ?_, hx, ?_⟩
      · simp [renameLoop, hx]
      · intro m hm1 hm2
        omega

/-- Claim C5: under the rename strategy, the resolver appends `_1`, `_2`,
… before the extension, takes the first suffix whose path does not exist,
and clears the conflict flag.  (The hypothesis that some candidate within
the loop's fuel is free is always satisfiable — the filesystem is finite
— and is discharged concretely in the witness.) -/
theorem resolve_conflict_rename_first_free (fs : FS) (plan : OrganizationPlan)
    (hres : plan.conflict_resolution = some .rename)
    (hfree : ∃ k, k < fs.files.length + 1 ∧
      fs.pathExists (renameCandidate plan.destination_path (1 + k)) = false) :
    ∃ n, 1 ≤ n ∧
      (resolve_conflict fs plan).destination_path =
        renameCandidate plan.destination_path n ∧
      fs.pathExists (renameCandidate plan.destination_path n) = false ∧
      (∀ m, 1 ≤ m → m < n →
        fs.pathExists (renameCandidate plan.destination_path m) = true) ∧
      (resolve_conflict fs plan).conflict = false := by
  obtain ⟨n, hn1, hn2, hn3, hn4⟩ :=
    renameLoop_first_free fs plan.destination_path (fs.files.length + 1) 1 hfree
  refine ⟨n, hn1, ?_, hn3, hn4, ?_⟩
  · simp [resolve_conflict, hres, hn2]
  · simp [resolve_conflict, hres, hn2]

/-- Fixture metadata for the rename witness. -/
def fmR : FileMetadata :=
  { source_path := ⟨"inbox", "report", ".txt"⟩
    stem := "report"
    extension := ".txt"
    size := 3
    modified_date := ⟨0, 2024, 1, 1⟩ }

/-- Fixture filesystem where `report.txt` and `report_1.txt` are both
occupied. -/
def fsR : FS :=
  ⟨[(⟨"base", "report", ".txt"⟩, ⟨1, 0⟩), (⟨"base", "report_1", ".txt"⟩, ⟨2, 0⟩)]⟩

/-- Fixture plan conflicted at `report.txt` under the rename strategy. -/
def planR : OrganizationPlan :=
  { file_metadata := fmR
    destination_path := ⟨"base", "report", ".txt"⟩
    operation := .copy
    conflict := true
    conflict_resolution := some .rename }

/-- Witness for `resolve_conflict_rename_first_free`: with `report.txt`
and `report_1.txt` occupied, the resolved destination is `report_2.txt`
and the conflict flag is cleared. -/
theorem resolve_conflict_rename_first_free_witness :
    planR.conflict_resolution = some .rename ∧
    (∃ n, 1 ≤ n ∧
      (resolve_conflict fsR planR).destination_path =
        renameCandidate planR.destination_path n ∧
      fsR.pathExists (renameCandidate planR.destination_path n) = false ∧
      (∀ m, 1 ≤ m → m < n →
        fsR.pathExists (renameCandidate planR.destination_path m) = true) ∧
      (resolve_conflict fsR planR).conflict = false) ∧
    (resolve_conflict fsR planR).destination_path = ⟨"base", "report_2", ".txt"⟩ ∧
    (resolve_conflict fsR planR).skip = false :=
  ⟨rfl,
   resolve_conflict_rename_first_free fsR planR rfl ⟨1, by decide, by decide⟩,
   by decide, by decide⟩

/-! ## Claim C7: dry-run emits successes and never touches the filesystem -/

theorem execute_plan_dry_fs (cfg : Config) (fs : FS)
    (plans : List OrganizationPlan) (now : Int) :
    (execute_plan cfg fs plans true now).1 = fs := by
  induction plans with
  | nil => rfl
  | cons plan rest ih =>
    cases hs : plan.skip <;> simp [execute_plan, hs, ih]

theorem execute_plan_dry_length (cfg : Config) (fs : FS)
    (plans : List OrganizationPlan) (now : Int) :
    (execute_plan cfg fs plans true now).2.length =
      (plans.filter (fun p => !p.skip)).length := by
  induction plans with
  | nil => rfl
  | cons plan rest ih =>
    cases hs : plan.skip <;> simp [execute_plan, hs, List.filter_cons, ih]

theorem execute_plan_dry_success (cfg : Config) (fs : FS)
    (plans : List OrganizationPlan) (now : Int) :
    ∀ t ∈ (execute_plan cfg fs plans true now).2, t.success = true := by
  induction plans with
  | nil =>
    intro t ht
    cases ht
  | cons plan rest ih =>
    intro t ht
    cases hs : plan.skip
    · rw [execute_plan] at ht
      simp only [hs, if_false, if_true, Bool.false_eq_true] at ht
      rcases List.mem_cons.mp ht with rfl | hmem
      · rfl
      · exact ih t hmem
    · rw [execute_plan] at ht
      simp only [hs, if_true] at ht
      exact ih t ht

/-- Claim C7: for every plan list, `execute_plan` with `dry_run = true`
emits exactly one success transaction per non-skipped plan, leaves the
filesystem untouched, and repeating the call produces the identical
result on the unchanged filesystem. -/
theorem execute_plan_dry_run_frame (cfg : Config) (fs : FS)
    (plans : List OrganizationPlan) (now : Int) :
    (execute_plan cfg fs plans true now).1 = fs ∧
    (execute_plan cfg fs plans true now).2.length =
      (plans.filter (fun p => !p.skip)).length ∧
    (∀ t ∈ (execute_plan cfg fs plans true now).2, t.success = true) ∧
    execute_plan cfg (execute_plan cfg fs plans true now).1 plans true now =
      execute_plan cfg fs plans true now :=
  ⟨execute_plan_dry_fs cfg fs plans now,
   execute_plan_dry_length cfg fs plans now,
   execute_plan_dry_success cfg fs plans now,
   by rw [execute_plan_dry_fs cfg fs plans now]⟩

/-- Fixture plan whose source file does not exist on `fsR` (its source
directory is empty there). -/
def planGone : OrganizationPlan :=
  { file_metadata :=
      { source_path := ⟨"gone", "x", ".txt"⟩
        stem := "x"
        extension := ".txt"
        size := 0
        modified_date := ⟨0, 2024, 1, 1⟩ }
    destination_path := ⟨"org", "x", ".txt"⟩
    operation := .copy }

/-- Fixture plan copying the existing `report.txt` of `fsR` elsewhere. -/
def planGood : OrganizationPlan :=
  { file_metadata := fmR
    destination_path := ⟨"org", "report", ".txt"⟩
    operation := .copy }

/-- Fixture: `fsR` with the `planGood` source file present. -/
def fsE : FS :=
  ⟨(⟨"inbox", "report", ".txt"⟩, ⟨5, 40⟩) :: fsR.files⟩

/-- Witness for `execute_plan_dry_run_frame` on a two-plan batch. -/
theorem execute_plan_dry_run_frame_witness :
    ((execute_plan {} fsE [planGone, planGood] true 7).1 = fsE ∧
     (execute_plan {} fsE [planGone, planGood] true 7).2.length =
       ([planGone, planGood].filter (fun p => !p.skip)).length ∧
     (∀ t ∈ (execute_plan {} fsE [planGone, planGood] true 7).2, t.success = true) ∧
     execute_plan {} (execute_plan {} fsE [planGone, planGood] true 7).1
         [planGone, planGood] true 7 =
       execute_plan {} fsE [planGone, planGood] true 7) ∧
    (execute_plan {} fsE [planGone, planGood] true 7).2.length = 2 :=
  ⟨execute_plan_dry_run_frame {} fsE [planGone, planGood] 7, by decide⟩

/-! ## Claim C6: execution failures are caught per file -/

theorem executeStep_success_or_error (cfg : Config) (fs : FS)
    (plan : OrganizationPlan) (now : Int) :
    ((executeStep cfg fs plan now).2.success = true ∧
      (executeStep cfg fs plan now).2.error = none) ∨
    ((executeStep cfg fs plan now).2.success = false ∧
      (executeStep cfg fs plan now).2.error ≠ none) := by
  simp only [executeStep]
  split
  · simp
  · split
    · simp
    · split
      · split
        · simp
        · simp
      · simp

theorem execute_plan_count (cfg : Config) (fs : FS)
    (plans : List OrganizationPlan) (now : Int) :
    (execute_plan cfg fs plans false now).2.length =
      (plans.filter (fun p => !p.skip)).length := by
  induction plans generalizing fs with
  | nil => rfl
  | cons plan rest ih =>
    cases hs : plan.skip <;> simp [execute_plan, hs, List.filter_cons, ih]

/-- Claim C6: executing a batch (not dry-run) never aborts — every
non-skipped plan yields exactly one transaction even when its own steps
fail — and a failed transaction always carries an error message. -/
theorem execute_plan_partial_failure (cfg : Config) (fs : FS)
    (plans : List OrganizationPlan) (now : Int) :
    (execute_plan cfg fs plans false now).2.length =
      (plans.filter (fun p => !p.skip)).length ∧
    (∀ t ∈ (execute_plan cfg fs plans false now).2,
      t.success = false → t.error ≠ none) := by
  refine ⟨execute_plan_count cfg fs plans now, ?_⟩
  induction plans generalizing fs with
  | nil =>
    intro t ht
    cases ht
  | cons plan rest ih =>
    intro t ht
    cases hs : plan.skip
    · rw [execute_plan] at ht
      simp only [hs, if_false, if_true, Bool.false_eq_true] at ht
      rcases List.mem_cons.mp ht with rfl | hmem
      · intro hfail
        rcases executeStep_success_or_error cfg fs plan now with ⟨h1, _⟩ | ⟨_, h2⟩
        · rw [hfail] at h1
          cases h1
        · exact h2
      · exact ih _ t hmem
    · rw [execute_plan] at ht
      simp only [hs, if_true] at ht
      exact ih _ t ht

/-- Witness for `execute_plan_partial_failure`: a batch whose first plan
fails (missing source) and whose second succeeds still yields two
transactions, the first of which carries an error. -/
theorem execute_plan_partial_failure_witness :
    ((execute_plan {} fsE [planGone, planGood] false 7).2.length =
       ([planGone, planGood].filter (fun p => !p.skip)).length ∧
     (∀ t ∈ (execute_plan {} fsE [planGone, planGood] false 7).2,
       t.success = false → t.error ≠ none)) ∧
    ((execute_plan {} fsE [planGone, planGood] false 7).2.map
        (fun t => t.success)) = [false, true] ∧
    ((execute_plan {} fsE [planGone, planGood] false 7).2.map
        (fun t => t.error)) = [some "FileNotFoundError", none] :=
  ⟨execute_plan_partial_failure {} fsE [planGone, planGood] 7, by decide, by decide⟩

/-! ## Claim C8: undo skips failed transactions and removes the batch -/

/-- Claim C8: `undo_last_batch` attempts no filesystem action for a
transaction recorded with `success = false` (neither counter moves and
the filesystem is untouched), and the log that remains afterwards is
always the input log minus the entire scanned-back batch, independently
of the undo outcomes. -/
theorem undo_skips_failed_and_removes_batch (fs : FS) (log : List Transaction) :
    (undo_last_batch fs log).2.1 =
      log.take (log.length - (get_last_batch log).length) ∧
    (∀ g t, t.success = false → undoStep g t = (g, .skipped)) := by
  constructor
  · cases hempty : (get_last_batch log).isEmpty
    · simp [undo_last_batch, hempty]
    · rw [List.isEmpty_iff] at hempty
      simp [undo_last_batch, hempty]
  · intro g t h
    simp [undoStep, h]

/-- Fixture: a transaction recorded as failed. -/
def txFail : Transaction :=
  { timestamp := 0
    operation := .copy
    source_path := ⟨"home", "f", ".txt"⟩
    destination_path := ⟨"org", "f", ".txt"⟩
    success := false
    error := some "disk full" }

/-- Witness for `undo_skips_failed_and_removes_batch` on a log holding a
failed and a successful transaction. -/
theorem undo_skips_failed_and_removes_batch_witness :
    ((undo_last_batch fsK [txFail, txAt 10]).2.1 =
       [txFail, txAt 10].take
         ([txFail, txAt 10].length - (get_last_batch [txFail, txAt 10]).length) ∧
     (∀ g t, t.success = false → undoStep g t = (g, .skipped))) ∧
    undoStep fsK txFail = (fsK, .skipped) ∧
    (undo_last_batch fsK [txFail, txAt 10]).2.1 = [] :=
  ⟨undo_skips_failed_and_removes_batch fsK [txFail, txAt 10],
   (undo_skips_failed_and_removes_batch fsK [txFail, txAt 10]).2 fsK txFail rfl,
   by decide⟩

/-! ## Claim C10: undos that touch nothing are counted in neither tally -/

/-- Fixture: a successful copy transaction whose destination no longer
exists at undo time. -/
def txOrphan : Transaction :=
  { timestamp := 0
    operation := .copy
    source_path := ⟨"home", "o", ".txt"⟩
    destination_path := ⟨"org", "o", ".txt"⟩
    success := true }

/-- Fixture: the empty filesystem. -/
def fsEmpty : FS := ⟨[]⟩

/-- Claim C10: the `(successful, failed)` pair of `undo_last_batch` can
sum to strictly less than the number of `success = true` transactions in
the batch: a successful copy whose destination is already gone moves
neither counter, yet its entry is still removed from the log. -/
theorem undo_last_batch_uncounted :
    (undo_last_batch fsEmpty [txOrphan]).2.2 = (0, 0) ∧
    ([txOrphan].filter (fun t => t.success)).length = 1 ∧
    0 + 0 < 1 ∧
    (undo_last_batch fsEmpty [txOrphan]).2.1 = [] ∧
    undoStep fsEmpty txOrphan = (fsEmpty, .skipped) := by
  decide

/-! ## Claim C9: filename truncation preserves the extension -/

/-- Claim C9: whenever the formatted filename (template substitution and
transformations, then the original extension) exceeds `max_length`, the
result is truncated from the right to exactly `max_length` characters:
it is the leading characters of the formatted stem followed by the full
extension, so in particular it still ends in the extension. -/
theorem apply_naming_truncation (cfg : NamingConfig) (fm : FileMetadata)
    (hext : fm.extension.data.length ≤ cfg.max_length)
    (hlong : cfg.max_length < (namingStem cfg fm ++ fm.extension.data).length) :
    (apply_naming_convention cfg fm).length = cfg.max_length ∧
    apply_naming_convention cfg fm =
      (namingStem cfg fm).take (cfg.max_length - fm.extension.data.length) ++
        fm.extension.data ∧
    fm.extension.data <:+ apply_naming_convention cfg fm := by
  have hsl : cfg.max_length - fm.extension.data.length ≤ (namingStem cfg fm).length := by
    rw [List.length_append] at hlong
    omega
  have htn : ((cfg.max_length : Int) - (fm.extension.data.length : Int)).toNat =
      cfg.max_length - fm.extension.data.length := by
    omega
  have heq : apply_naming_convention cfg fm =
      (namingStem cfg fm).take (cfg.max_length - fm.extension.data.length) ++
        fm.extension.data := by
    simp only [apply_naming_convention, pySliceTo]
    rw [if_pos hlong, if_pos (by omega : (0 : Int) ≤
      (cfg.max_length : Int) - (fm.extension.data.length : Int))]
    rw [htn, List.take_append_of_le_length hsl]
  refine ⟨?_, heq, ?_⟩
  · rw [heq, List.length_append, List.length_take]
    omega
  · exact ⟨(namingStem cfg fm).take (cfg.max_length - fm.extension.data.length), heq.symm⟩

/-- Fixture record for the truncation witness: stem `abcdefg` (7 > 6
characters) with extension `.txt`. -/
def fmN : FileMetadata :=
  { source_path := ⟨"inbox", "abcdefg", ".txt"⟩
    stem := "abcdefg"
    extension := ".txt"
    size := 1
    modified_date := ⟨0, 1970, 1, 1⟩ }

/-- Fixture naming configuration with `max_length = 10`. -/
def cfgN : NamingConfig := { max_length := 10 }

/-- Witness for `apply_naming_truncation`: with `max_length = 10` and
extension `.txt`, the 7-character stem is cut to exactly 10 characters,
`abcdef.txt`. -/
theorem apply_naming_truncation_witness :
    (fmN.extension.data.length ≤ cfgN.max_length ∧
     cfgN.max_length < (namingStem cfgN fmN ++ fmN.extension.data).length) ∧
    ((apply_naming_convention cfgN fmN).length = cfgN.max_length ∧
     apply_naming_convention cfgN fmN =
       (namingStem cfgN fmN).take (cfgN.max_length - fmN.extension.data.length) ++
         fmN.extension.data ∧
     fmN.extension.data <:+ apply_naming_convention cfgN fmN) ∧
    apply_naming_convention cfgN fmN = "abcdef.txt".data :=
  ⟨⟨by decide, by decide⟩,
   apply_naming_truncation cfgN fmN (by decide) (by decide),
   by decide⟩

/-! ## Inversion lemmas for the executor primitives -/

theorem FS.get_set (fs : FS) (p q : FPath) (fd : FileData) :
    (fs.set p fd).get q = if q = p then some fd else fs.get q := by
  by_cases h : q = p
  · rw [if_pos h, h]
    exact fs.get_set_self p fd
  · rw [if_neg h]
    exact fs.get_set_ne p q fd h

theorem copy2_ok (fs : FS) (src dst : FPath) (fs' : FS)
    (h : copy2 fs src dst = .ok fs') :
    src ≠ dst ∧ ∃ c, fs.get src = some c ∧ fs' = fs.set dst c := by
  unfold copy2 at h
  by_cases hsd : src = dst
  · rw [if_pos hsd] at h
    cases h
  · rw [if_neg hsd] at h
    cases hg : fs.get src with
    | none =>
      rw [hg] at h
      cases h
    | some c =>
      rw [hg] at h
      refine ⟨hsd, c, rfl, ?_⟩
      cases h
      rfl

theorem copystat_ok (fs : FS) (src dst : FPath) (fs' : FS)
    (h : copystat fs src dst = .ok fs') :
    ∃ s d, fs.get src = some s ∧ fs.get dst = some d ∧
      fs' = fs.set dst ⟨d.content, s.mtime⟩ := by
  unfold copystat at h
  cases hs : fs.get src with
  | none =>
    rw [hs] at h
    cases h
  | some s =>
    cases hd : fs.get dst with
    | none =>
      rw [hs, hd] at h
      cases h
    | some d =>
      rw [hs, hd] at h
      cases h
      exact ⟨s, d, rfl, rfl, rfl⟩

theorem create_backup_ok (cfg : Config) (fs : FS) (src : FPath) (now : Int)
    (fs1 : FS) (bp : FPath)
    (h : create_backup cfg fs src now = .ok (fs1, bp)) :
    bp = backupPathFor cfg src now ∧
    src ≠ bp ∧
    ∃ c, fs.get src = some c ∧ fs1 = fs.set bp c ∧
      copy2 fs src bp = .ok (fs.set bp c) := by
  unfold create_backup at h
  cases hc : copy2 fs src (backupPathFor cfg src now) with
  | error e =>
    rw [hc] at h
    cases h
  | ok fsb =>
    rw [hc] at h
    have h2 : (fsb, backupPathFor cfg src now) = (fs1, bp) := by
      injection h
    have hfs1 : fs1 = fsb := (congrArg Prod.fst h2).symm
    have hbp : bp = backupPathFor cfg src now := (congrArg Prod.snd h2).symm
    obtain ⟨hne, c, hget, hfs⟩ := copy2_ok fs src (backupPathFor cfg src now) fsb hc
    subst hbp
    subst hfs1
    exact ⟨rfl, hne, c, hget, hfs, hfs ▸ hc⟩

/-! ## Claim C3: when `backup_path` is set -/

/-- Fixture configuration with backups enabled. -/
def cfgB : Config := { create_backup := true, backup_path := "bk" }

/-- Claim C3, counterexample: with backups enabled, executing a **copy**
plan sets `backup_path` on the transaction — the source creates a backup
for every operation kind whenever `safety.create_backup` is on, not only
before destructive moves. -/
theorem executeStep_backup_on_copy_counterexample :
    (executeStep cfgB fsE planGood 7).2.operation = .copy ∧
    (executeStep cfgB fsE planGood 7).2.success = true ∧
    (executeStep cfgB fsE planGood 7).2.backup_path =
      some ⟨"bk", "report_7", ".txt"⟩ := by
  decide

/-- Claim C3, amended: `backup_path` is set only when backups are enabled
in the configuration and the backup copy actually succeeded — the
recorded path is the timestamped backup location and the copy of the
source into it was performed — but this holds for every operation kind
(copy as well as move), not only before destructive moves. -/
theorem executeStep_backup_path (cfg : Config) (fs : FS) (plan : OrganizationPlan)
    (now : Int) (p : FPath)
    (h : (executeStep cfg fs plan now).2.backup_path = some p) :
    cfg.create_backup = true ∧
    p = backupPathFor cfg plan.file_metadata.source_path now ∧
    ∃ c, fs.get plan.file_metadata.source_path = some c ∧
      copy2 fs plan.file_metadata.source_path p = .ok (fs.set p c) := by
  cases hcb : cfg.create_backup
  · exfalso
    simp only [executeStep, hcb, Bool.false_eq_true, if_false] at h
    split at h
    · exact Option.noConfusion h
    · split at h
      · split at h
        · exact Option.noConfusion h
        · exact Option.noConfusion h
      · exact Option.noConfusion h
  · simp only [executeStep, hcb, if_true] at h
    cases hb : create_backup cfg fs plan.file_metadata.source_path now with
    | error e =>
      rw [hb] at h
      simp only [Except.map] at h
      exact Option.noConfusion h
    | ok v =>
      obtain ⟨fs1, bp⟩ := v
      rw [hb] at h
      simp only [Except.map] at h
      obtain ⟨hbp, hne, c, hget, hfs, hcopy⟩ :=
        create_backup_ok cfg fs plan.file_metadata.source_path now fs1 bp hb
      have hpb : p = bp := by
        split at h
        · exact (Option.some.inj h).symm
        · split at h
          · split at h
            · exact (Option.some.inj h).symm
            · exact (Option.some.inj h).symm
          · exact (Option.some.inj h).symm
      refine ⟨rfl, hpb.trans hbp, c, hget, ?_⟩
      rw [hpb]
      exact hcopy

/-- Witness for `executeStep_backup_path` at the copy fixture. -/
theorem executeStep_backup_path_witness :
    (executeStep cfgB fsE planGood 7).2.backup_path =
      some ⟨"bk", "report_7", ".txt"⟩ ∧
    (cfgB.create_backup = true ∧
     (⟨"bk", "report_7", ".txt"⟩ : FPath) =
       backupPathFor cfgB planGood.file_metadata.source_path 7 ∧
     ∃ c, fsE.get planGood.file_metadata.source_path = some c ∧
       copy2 fsE planGood.file_metadata.source_path ⟨"bk", "report_7", ".txt"⟩ =
         .ok (fsE.set ⟨"bk", "report_7", ".txt"⟩ c)) :=
  ⟨by decide,
   executeStep_backup_path cfgB fsE planGood 7 ⟨"bk", "report_7", ".txt"⟩ (by decide)⟩

/-! ## Claim C2: copy followed by undo restores the filesystem -/

theorem executeStep_copy_success (cfg : Config) (fs : FS) (plan : OrganizationPlan)
    (now : Int)
    (hop : plan.operation = .copy)
    (hsucc : (executeStep cfg fs plan now).2.success = true) :
    plan.file_metadata.source_path ≠ plan.destination_path ∧
    (executeStep cfg fs plan now).2.operation = .copy ∧
    (executeStep cfg fs plan now).2.destination_path = plan.destination_path ∧
    (executeStep cfg fs plan now).1.pathExists plan.destination_path = true ∧
    (executeStep cfg fs plan now).1.get plan.file_metadata.source_path =
      fs.get plan.file_metadata.source_path := by
  cases hB : (if cfg.create_backup then
      (create_backup cfg fs plan.file_metadata.source_path now).map
        (fun r => (r.1, some r.2))
    else .ok (fs, none) : Except String (FS × Option FPath)) with
  | error e =>
    exfalso
    simp only [executeStep, hB] at hsucc
    exact Bool.noConfusion hsucc
  | ok v =>
    obtain ⟨fs1, bp⟩ := v
    have hpres : fs1.get plan.file_metadata.source_path =
        fs.get plan.file_metadata.source_path := by
      by_cases hcb : cfg.create_backup = true
      · rw [if_pos hcb] at hB
        cases hcb2 : create_backup cfg fs plan.file_metadata.source_path now with
        | error e =>
          rw [hcb2] at hB
          simp [Except.map] at hB
        | ok w =>
          obtain ⟨fs1', bpp⟩ := w
          rw [hcb2] at hB
          simp only [Except.map] at hB
          have h2 : (fs1', some bpp) = (fs1, bp) := by injection hB
          have hfs1 : fs1 = fs1' := (congrArg Prod.fst h2).symm
          obtain ⟨hbpp, hne, c0, hget0, hfs1', hcopy0⟩ :=
            create_backup_ok cfg fs plan.file_metadata.source_path now fs1' bpp hcb2
          rw [hfs1, hfs1']
          exact FS.get_set_ne fs bpp plan.file_metadata.source_path c0 hne
      · rw [if_neg hcb] at hB
        have h2 : ((fs, none) : FS × Option FPath) = (fs1, bp) := by injection hB
        have hfs1 : fs = fs1 := congrArg Prod.fst h2
        rw [← hfs1]
    cases hcp : copy2 fs1 plan.file_metadata.source_path plan.destination_path with
    | error e =>
      exfalso
      simp only [executeStep, hB, hop, hcp] at hsucc
      exact Bool.noConfusion hsucc
    | ok fs2 =>
      obtain ⟨hnd, c, hc1, hfs2⟩ :=
        copy2_ok fs1 plan.file_metadata.source_path plan.destination_path fs2 hcp
      cases hpt : cfg.preserve_timestamps with
      | false =>
        have hE : executeStep cfg fs plan now =
            (fs2,
             { timestamp := now
               operation := plan.operation
               source_path := plan.file_metadata.source_path
               destination_path := plan.destination_path
               success := true
               error := none
               backup_path := bp }) := by
          simp only [executeStep, hB, hop, hcp, hpt, Bool.false_eq_true, if_false]
        rw [hE]
        refine ⟨hnd, hop, rfl, ?_, ?_⟩
        · rw [hfs2]
          simp [FS.pathExists, FS.get_set_self]
        · rw [hfs2, FS.get_set_ne fs1 plan.destination_path
            plan.file_metadata.source_path c hnd, hpres]
      | true =>
        cases hcs : copystat fs2 plan.file_metadata.source_path plan.destination_path with
        | error e =>
          exfalso
          simp only [executeStep, hB, hop, hcp, hpt, hcs, if_true] at hsucc
          exact Bool.noConfusion hsucc
        | ok fs3 =>
          obtain ⟨s', d', hs', hd', hfs3⟩ :=
            copystat_ok fs2 plan.file_metadata.source_path plan.destination_path fs3 hcs
          have hE : executeStep cfg fs plan now =
              (fs3,
               { timestamp := now
                 operation := plan.operation
                 source_path := plan.file_metadata.source_path
                 destination_path := plan.destination_path
                 success := true
                 error := none
                 backup_path := bp }) := by
            simp only [executeStep, hB, hop, hcp, hpt, hcs, if_true]
          rw [hE]
          refine ⟨hnd, hop, rfl, ?_, ?_⟩
          · rw [hfs3]
            simp [FS.pathExists, FS.get_set_self]
          · rw [hfs3, FS.get_set_ne fs2 plan.destination_path
              plan.file_metadata.source_path _ hnd, hfs2,
              FS.get_set_ne fs1 plan.destination_path
              plan.file_metadata.source_path c hnd, hpres]

theorem get_last_batch_singleton (t : Transaction) :
    get_last_batch [t] = [t] := by
  simp [get_last_batch, inBatchWindow]

/-- Claim C2: executing a copy plan that succeeds and then undoing the
resulting one-transaction batch leaves the destination absent, the source
file exactly as it was before execution, and the batch removed from the
log. -/
theorem copy_undo_roundtrip (cfg : Config) (fs0 : FS) (plan : OrganizationPlan)
    (now : Int) (fs1 : FS) (t : Transaction)
    (hop : plan.operation = .copy)
    (hexec : execute_plan cfg fs0 [plan] false now = (fs1, [t]))
    (hsucc : t.success = true) :
    (undo_last_batch fs1 [t]).1.get plan.destination_path = none ∧
    (undo_last_batch fs1 [t]).1.get plan.file_metadata.source_path =
      fs0.get plan.file_metadata.source_path ∧
    (undo_last_batch fs1 [t]).2.1 = [] := by
  cases hskip : plan.skip with
  | true =>
    exfalso
    simp only [execute_plan, hskip, if_true] at hexec
    have h2 : ([] : List Transaction) = [t] := congrArg Prod.snd hexec
    cases h2
  | false =>
    have hexec2 : (executeStep cfg fs0 plan now).1 = fs1 ∧
        (executeStep cfg fs0 plan now).2 = t := by
      simp only [execute_plan, hskip, Bool.false_eq_true, if_false] at hexec
      exact ⟨congrArg Prod.fst hexec, List.head_eq_of_cons_eq (congrArg Prod.snd hexec)⟩
    obtain ⟨hfs1, ht⟩ := hexec2
    have hsucc' : (executeStep cfg fs0 plan now).2.success = true := by
      rw [ht]
      exact hsucc
    obtain ⟨hnd, htop, htdst, hdexists, hspres⟩ :=
      executeStep_copy_success cfg fs0 plan now hop hsucc'
    rw [ht] at htop htdst
    rw [hfs1] at hdexists hspres
    have hundo : undo_last_batch fs1 [t] =
        (fs1.remove plan.destination_path, [], 1, 0) := by
      have hstep : undoStep fs1 t = (fs1.remove plan.destination_path, .succeeded) := by
        rw [undoStep, hsucc]
        simp only [Bool.not_true, Bool.false_eq_true, if_false]
        rw [htop, htdst, if_pos hdexists]
      simp only [undo_last_batch, get_last_batch_singleton, List.isEmpty_cons,
        List.reverse_cons, List.reverse_nil, List.nil_append, undoBatch, hstep]
      simp
    rw [hundo]
    refine ⟨FS.get_remove_self fs1 plan.destination_path, ?_, rfl⟩
    rw [FS.get_remove_ne fs1 plan.destination_path
        plan.file_metadata.source_path hnd]
    exact hspres

/-- Fixture: the filesystem after executing `planGood` on `fsE` (the
destination holds a copy of the source's contents and timestamps). -/
def fs1W : FS :=
  ⟨[(⟨"org", "report", ".txt"⟩, ⟨5, 40⟩),
    (⟨"inbox", "report", ".txt"⟩, ⟨5, 40⟩),
    (⟨"base", "report", ".txt"⟩, ⟨1, 0⟩),
    (⟨"base", "report_1", ".txt"⟩, ⟨2, 0⟩)]⟩

/-- Fixture: the transaction recorded for that execution. -/
def tW : Transaction :=
  { timestamp := 7
    operation := .copy
    source_path := ⟨"inbox", "report", ".txt"⟩
    destination_path := ⟨"org", "report", ".txt"⟩
    success := true }

/-- Witness for `copy_undo_roundtrip`: executing the copy fixture and
undoing its batch removes the destination and leaves the source entry
untouched. -/
theorem copy_undo_roundtrip_witness :
    planGood.operation = .copy ∧
    execute_plan {} fsE [planGood] false 7 = (fs1W, [tW]) ∧
    tW.success = true ∧
    ((undo_last_batch fs1W [tW]).1.get planGood.destination_path = none ∧
     (undo_last_batch fs1W [tW]).1.get planGood.file_metadata.source_path =
       fsE.get planGood.file_metadata.source_path ∧
     (undo_last_batch fs1W [tW]).2.1 = []) :=
  ⟨rfl, by decide, rfl,
   copy_undo_roundtrip {} fsE planGood 7 fs1W tW rfl (by decide) rfl⟩

end FileOrg
